import Mathlib

/-!
# Verification of `src/actions.py` (dnd-api-actions)

A shallow embedding of the two actions in `src/actions.py`:
`get_ability_score_models` and `get_background_models`.  The external
generated client (`dnd5epy`) is modelled as an oracle parameter: per the
client contract, each existing endpoint method either returns a response
object or raises the typed `ApiException`.  The backgrounds action invokes
a method that does not exist on the client class; by Python attribute
semantics that raises `AttributeError`, which we model as a distinct
client behaviour.  Each embedded operation returns both its Python-level
outcome (a returned value or a propagated exception) and the trace of
resource/call events it performs, so that connection-scoping and
call-count claims can be stated.
-/

namespace DndActions

/-- Python `dict` values used by the actions are insertion-ordered string-keyed
maps; we embed them as association lists in insertion order.  `V` stands for
the (opaque) converted model values produced by `to_dict()`. -/
abbrev Dict (V : Type) : Type := List (String × V)

/-- Python dict assignment `d[k] = v`: if `k` is present, the value is updated
in place (the key keeps its original position); otherwise the pair is appended
at the end. -/
def dictInsert {V : Type} : Dict V → String → V → Dict V
  | [], k, v => [(k, v)]
  | (k', v') :: rest, k, v =>
      if k' = k then (k', v) :: rest else (k', v') :: dictInsert rest k v

/-- Python dict lookup `d[k]` (as an option). -/
def dictLookup {V : Type} : Dict V → String → Option V
  | [], _ => none
  | (k', v) :: rest, k => if k' = k then some v else dictLookup rest k

/-- The key sequence of a dict, in insertion order (Python `list(d.keys())`). -/
def dictKeys {V : Type} (d : Dict V) : List String := d.map Prod.fst

/-- Response object of the per-ability-score endpoint
(`api_ability_scores_index_get`); the action only uses its `to_dict()`
conversion, which we record as a field. -/
structure AbilityScoreResponse (V : Type) where
  to_dict : V

/-- A summary object inside the backgrounds response `results` collection:
the action reads its `index` field and its `to_dict()` conversion. -/
structure BackgroundSummary (V : Type) where
  index : String
  to_dict : V

/-- Response object of a backgrounds-listing endpoint, exposing a `results`
collection of summary objects. -/
structure BackgroundsResponse (V : Type) where
  results : List (BackgroundSummary V)

/-- Exceptions that can propagate out of the embedded operations.
`apiException` is the typed exception `dnd5epy.rest.ApiException` (carrying
its message); `attributeError` is Python's `AttributeError`, raised when an
attribute (here: a client method) does not exist. -/
inductive PyExc where
  | apiException (msg : String)
  | attributeError (msg : String)
deriving DecidableEq, Repr

/-- Outcome of a Python call: a returned value, or a propagated exception. -/
inductive PyResult (α : Type) where
  | ret (a : α)
  | raised (e : PyExc)
deriving DecidableEq, Repr

/-- Observable resource and call events of one operation invocation:
entering/exiting the `with dnd5epy.ApiClient(...)` scope, one attempt of the
per-ability-score endpoint for a given identifier, and one attempt of the
backgrounds method call expression. -/
inductive Event where
  | openClient
  | closeClient
  | callAbility (name : String)
  | callBackgrounds
deriving DecidableEq, Repr

/-- `ABILITY_SCORE_NAMES` from `src/actions.py` line 13. -/
def ABILITY_SCORE_NAMES : List String := ["str", "dex", "con", "int", "wis", "cha"]

/-- Behaviour of the external per-ability-score endpoint: for each identifier,
either a response object or the typed `ApiException` (its message), per the
generated-client contract. -/
abbrev AbilityClient (V : Type) : Type := String → Except String (AbilityScoreResponse V)

/-- Behaviour of the backgrounds call target.  `methodMissing` is the current
real client: `api_backgrounds_get_not_real_method` does not exist on
`CharacterDataApi`, so the attribute access raises `AttributeError`.
`callable` is a hypothetical client on which the method exists and either
returns a response or raises the typed `ApiException`. -/
inductive BackgroundsClient (V : Type) where
  | methodMissing
  | callable (outcome : Except String (BackgroundsResponse V))

/-- The `AttributeError` message Python produces for the missing method. -/
def bgMissingMsg : String :=
  "CharacterDataApi object has no attribute api_backgrounds_get_not_real_method"

/-- The `for name in ABILITY_SCORE_NAMES` loop body of
`get_ability_score_models` (lines 118-120): call the endpoint for each name
in order, storing `api_response.to_dict()` under `name`; the first raised
`ApiException` aborts the loop (the `try` wraps the whole loop) and is
returned as the pending exception together with the dict built so far and
the call events performed. -/
def abilityLoop {V : Type} (client : AbilityClient V) :
    List String → Dict V → Dict V × List Event × Option String
  | [], acc => (acc, [], none)
  | name :: rest, acc =>
      match client name with
      | Except.error e => (acc, [Event.callAbility name], some e)
      | Except.ok r =>
          let next := abilityLoop client rest (dictInsert acc name r.to_dict)
          (next.1, Event.callAbility name :: next.2.1, next.2.2)

/-- `get_ability_score_models` (lines 110-127), parameterised by the name
list it iterates (the module global `ABILITY_SCORE_NAMES`) and the client
behaviour.  `ability_score_descriptions = {}`; inside the `with` scope the
loop runs under `try`; `except ApiException as e: print(...)` catches the
typed exception (the only exception the endpoint can raise) so the partial
dict is returned on both paths. -/
def runAbility {V : Type} (names : List String) (client : AbilityClient V) :
    PyResult (Dict V) × List Event :=
  let step := abilityLoop client names []
  let trace := Event.openClient :: step.2.1 ++ [Event.closeClient]
  match step.2.2 with
  | none => (PyResult.ret step.1, trace)
  | some _ => (PyResult.ret step.1, trace)

/-- The action `get_ability_score_models`, iterating the module-level
`ABILITY_SCORE_NAMES`. -/
def get_ability_score_models {V : Type} (client : AbilityClient V) :
    PyResult (Dict V) × List Event :=
  runAbility ABILITY_SCORE_NAMES client

/-- `get_background_models` (lines 222-240): `background_descriptions = {}`;
inside the `with` scope, `try` evaluates
`api_instance.api_backgrounds_get_not_real_method()` once.  On the real
client the attribute does not exist, so `AttributeError` is raised; it is not
an `ApiException`, so the `except` clause does not catch it and it propagates
out of the `with` block (which still closes the client).  If the method
existed: on a response, the loop keys each `background.to_dict()` by
`background.index`; on a typed `ApiException`, the handler prints and the
empty dict is returned. -/
def get_background_models {V : Type} (client : BackgroundsClient V) :
    PyResult (Dict V) × List Event :=
  match client with
  | BackgroundsClient.methodMissing =>
      (PyResult.raised (PyExc.attributeError bgMissingMsg),
       [Event.openClient, Event.callBackgrounds, Event.closeClient])
  | BackgroundsClient.callable (Except.error _) =>
      (PyResult.ret [],
       [Event.openClient, Event.callBackgrounds, Event.closeClient])
  | BackgroundsClient.callable (Except.ok resp) =>
      (PyResult.ret (resp.results.foldl (fun d b => dictInsert d b.index b.to_dict) []),
       [Event.openClient, Event.callBackgrounds, Event.closeClient])

/-- The module-level state of `src/actions.py`: the `configuration` host and
the `ABILITY_SCORE_NAMES` list.  Neither is ever reassigned or mutated by the
actions. -/
structure ModuleState where
  host : String
  abilityScoreNames : List String
deriving DecidableEq, Repr

/-- The module state after import (lines 12-13). -/
def initialState : ModuleState :=
  { host := "https://www.dnd5eapi.co", abilityScoreNames := ABILITY_SCORE_NAMES }

/-- One invocation of `get_ability_score_models` as a state transformer over
the module state: the body reads `ABILITY_SCORE_NAMES`, builds a fresh local
dict starting from the empty literal, and never writes any module attribute,
so the state is returned unchanged. -/
def invokeAbility {V : Type} (s : ModuleState) (client : AbilityClient V) :
    (PyResult (Dict V) × List Event) × ModuleState :=
  (runAbility s.abilityScoreNames client, s)

/-- One invocation of `get_background_models` as a state transformer over the
module state: the body builds a fresh local dict from the empty literal and
never writes any module attribute. -/
def invokeBackground {V : Type} (s : ModuleState) (client : BackgroundsClient V) :
    (PyResult (Dict V) × List Event) × ModuleState :=
  (get_background_models client, s)

/-- Number of occurrences of an event in a trace. -/
def countEvent (e : Event) : List Event → Nat
  | [] => 0
  | e' :: tr => (if e' = e then 1 else 0) + countEvent e tr

/-- The dict the ability loop builds: one entry per name, in order, up to
(and excluding) the first name whose call raises. -/
def successEntries {V : Type} (client : AbilityClient V) : List String → Dict V
  | [] => []
  | n :: rest =>
      match client n with
      | Except.ok r => (n, r.to_dict) :: successEntries client rest
      | Except.error _ => []

/-- The endpoint-call events the ability loop performs: one per name, in
order, up to and including the first name whose call raises. -/
def callsMade {V : Type} (client : AbilityClient V) : List String → List Event
  | [] => []
  | n :: rest =>
      match client n with
      | Except.ok _ => Event.callAbility n :: callsMade client rest
      | Except.error _ => [Event.callAbility n]

/-- The exception pending after the ability loop: the error of the first
failing call, if any. -/
def firstErr {V : Type} (client : AbilityClient V) : List String → Option String
  | [] => none
  | n :: rest =>
      match client n with
      | Except.ok _ => firstErr client rest
      | Except.error e => some e

@[simp] theorem dictKeys_nil {V : Type} : dictKeys ([] : Dict V) = [] := rfl

@[simp] theorem dictKeys_cons {V : Type} (p : String × V) (rest : Dict V) :
    dictKeys (p :: rest) = p.1 :: dictKeys rest := rfl

@[simp] theorem dictKeys_append {V : Type} (d d' : Dict V) :
    dictKeys (d ++ d') = dictKeys d ++ dictKeys d' := by
  simp [dictKeys]

theorem dictLookup_eq_none {V : Type} (d : Dict V) (k : String) :
    dictLookup d k = none ↔ k ∉ dictKeys d := by
  induction d with
  | nil => simp [dictLookup]
  | cons p rest ih =>
      obtain ⟨k', v⟩ := p
      by_cases h : k' = k
      · subst h
        simp [dictLookup]
      · simp only [dictLookup, if_neg h, ih, dictKeys_cons, List.mem_cons]
        constructor
        · rintro hk (hc | hc)
          · exact h hc.symm
          · exact hk hc
        · intro hk hc
          exact hk (Or.inr hc)

theorem dictInsert_of_not_mem {V : Type} (d : Dict V) (k : String) (v : V)
    (h : k ∉ dictKeys d) : dictInsert d k v = d ++ [(k, v)] := by
  induction d with
  | nil => simp [dictInsert]
  | cons p rest ih =>
      obtain ⟨k', v'⟩ := p
      simp only [dictKeys_cons, List.mem_cons] at h
      push_neg at h
      have hne : ¬ k' = k := fun hc => h.1 hc.symm
      simp [dictInsert, hne, ih h.2]

/-- The ability loop, started on a dict whose keys are disjoint from the
(duplicate-free) remaining names, appends exactly the success-prefix entries,
performs exactly the calls up to the first failure, and leaves the first
failure pending. -/
theorem abilityLoop_eq {V : Type} (client : AbilityClient V) :
    ∀ (names : List String) (acc : Dict V), names.Nodup →
      (∀ n ∈ names, n ∉ dictKeys acc) →
      abilityLoop client names acc =
        (acc ++ successEntries client names, callsMade client names,
          firstErr client names) := by
  intro names
  induction names with
  | nil => intro acc _ _; simp [abilityLoop, successEntries, callsMade, firstErr]
  | cons n rest ih =>
      intro acc hnd hdisj
      rcases hcl : client n with e | r
      · simp [abilityLoop, successEntries, callsMade, firstErr, hcl]
      · have hacc : dictInsert acc n r.to_dict = acc ++ [(n, r.to_dict)] :=
          dictInsert_of_not_mem acc n r.to_dict (hdisj n (by simp))
        have hnd' : rest.Nodup := (List.nodup_cons.mp hnd).2
        have hdisj' : ∀ m ∈ rest, m ∉ dictKeys (acc ++ [(n, r.to_dict)]) := by
          intro m hm
          have hmn : m ≠ n := by
            rintro rfl
            exact (List.nodup_cons.mp hnd).1 hm
          have hma : m ∉ dictKeys acc := hdisj m (List.mem_cons_of_mem _ hm)
          simp only [dictKeys_append, List.mem_append, dictKeys_cons,
            dictKeys_nil, List.mem_singleton]
          rintro (hc | hc)
          · exact hma hc
          · exact hmn hc
        simp only [abilityLoop, hcl, hacc, ih _ hnd' hdisj']
        simp [successEntries, callsMade, firstErr, hcl]

/-- `get_ability_score_models` always returns (never raises): the dict is the
success prefix, and the trace is the open event, the calls made, then the
close event. -/
theorem get_ability_score_models_eq {V : Type} (client : AbilityClient V) :
    get_ability_score_models client =
      (PyResult.ret (successEntries client ABILITY_SCORE_NAMES),
        Event.openClient :: callsMade client ABILITY_SCORE_NAMES ++
          [Event.closeClient]) := by
  have hnd : ABILITY_SCORE_NAMES.Nodup := by decide
  have h := abilityLoop_eq client ABILITY_SCORE_NAMES [] hnd (by simp [dictKeys])
  unfold get_ability_score_models runAbility
  rw [h]
  rcases hf : firstErr client ABILITY_SCORE_NAMES with _ | e <;> simp [hf]

/-- If every name in the list succeeds, `successEntries` covers all of them,
so its key sequence is the whole name list. -/
theorem dictKeys_successEntries_of_ok {V : Type} (client : AbilityClient V) :
    ∀ names : List String, (∀ m ∈ names, ∃ r, client m = Except.ok r) →
      dictKeys (successEntries client names) = names := by
  intro names
  induction names with
  | nil => intro _; simp [successEntries]
  | cons n rest ih =>
      intro h
      obtain ⟨r, hr⟩ := h n (by simp)
      simp only [successEntries, hr, dictKeys_cons]
      rw [ih fun m hm => h m (List.mem_cons_of_mem _ hm)]

/-- If every name succeeds, looking up a name in the success prefix gives the
`to_dict` of its response. -/
theorem dictLookup_successEntries_of_ok {V : Type} (client : AbilityClient V) :
    ∀ (names : List String) (n : String) (r : AbilityScoreResponse V),
      (∀ m ∈ names, ∃ r', client m = Except.ok r') → n ∈ names →
      client n = Except.ok r →
      dictLookup (successEntries client names) n = some r.to_dict := by
  intro names
  induction names with
  | nil => intro n r _ hn; simp at hn
  | cons m rest ih =>
      intro n r h hn hr
      obtain ⟨rm, hm⟩ := h m (by simp)
      by_cases hnm : m = n
      · subst hnm
        rw [hr] at hm
        cases hm
        simp [successEntries, hr, dictLookup]
      · have hn' : n ∈ rest := by
          rcases List.mem_cons.mp hn with hc | hc
          · exact absurd hc.symm hnm
          · exact hc
        simp only [successEntries, hm, dictLookup, if_neg hnm]
        exact ih n r (fun x hx => h x (List.mem_cons_of_mem _ hx)) hn' hr

/-- A name whose call raises is never a key of the success prefix. -/
theorem dictLookup_successEntries_of_error {V : Type} (client : AbilityClient V)
    (e : String) :
    ∀ (names : List String) (n : String), client n = Except.error e →
      dictLookup (successEntries client names) n = none := by
  intro names
  induction names with
  | nil => intro n _; simp [successEntries, dictLookup]
  | cons m rest ih =>
      intro n hn
      rcases hm : client m with em | rm
      · simp [successEntries, hm, dictLookup]
      · have hnm : ¬ m = n := by
          rintro rfl
          rw [hn] at hm
          cases hm
        simp only [successEntries, hm, dictLookup, if_neg hnm]
        exact ih n hn

/-- The success prefix of an appended list splits when the first half fully
succeeds. -/
theorem successEntries_append_of_ok {V : Type} (client : AbilityClient V) :
    ∀ (pre rest : List String), (∀ m ∈ pre, ∃ r, client m = Except.ok r) →
      successEntries client (pre ++ rest) =
        successEntries client pre ++ successEntries client rest := by
  intro pre
  induction pre with
  | nil => intro rest _; simp [successEntries]
  | cons n pre' ih =>
      intro rest h
      obtain ⟨r, hr⟩ := h n (by simp)
      simp only [List.cons_append, successEntries, hr, List.nil_append]
      exact congrArg (List.cons (n, r.to_dict))
        (ih rest fun m hm => h m (List.mem_cons_of_mem _ hm))

/-- The key sequence of the success prefix is an initial segment (`take`) of
the name list. -/
theorem successEntries_keys_take {V : Type} (client : AbilityClient V) :
    ∀ names : List String, ∃ k, k ≤ names.length ∧
      dictKeys (successEntries client names) = names.take k := by
  intro names
  induction names with
  | nil => exact ⟨0, by simp, by simp [successEntries]⟩
  | cons n rest ih =>
      rcases hn : client n with e | r
      · exact ⟨0, by simp, by simp [successEntries, hn]⟩
      · obtain ⟨k, hk, hkeys⟩ := ih
        exact ⟨k + 1, by simpa using Nat.succ_le_succ hk,
          by simp [successEntries, hn, hkeys]⟩

/-- Every event the ability loop emits is a call of one of its names. -/
theorem callsMade_mem {V : Type} (client : AbilityClient V) :
    ∀ (names : List String) (e : Event), e ∈ callsMade client names →
      ∃ n ∈ names, e = Event.callAbility n := by
  intro names
  induction names with
  | nil => intro e he; simp [callsMade] at he
  | cons n rest ih =>
      intro e he
      rcases hn : client n with err | r <;> rw [callsMade, hn] at he
      · simp at he
        exact ⟨n, by simp, he⟩
      · rcases List.mem_cons.mp he with hc | hc
        · exact ⟨n, by simp, hc⟩
        · obtain ⟨m, hm, hem⟩ := ih e hc
          exact ⟨m, List.mem_cons_of_mem _ hm, hem⟩

@[simp] theorem countEvent_nil (e : Event) : countEvent e [] = 0 := rfl

@[simp] theorem countEvent_cons (e e' : Event) (tr : List Event) :
    countEvent e (e' :: tr) = (if e' = e then 1 else 0) + countEvent e tr := rfl

@[simp] theorem countEvent_append (e : Event) (tr tr' : List Event) :
    countEvent e (tr ++ tr') = countEvent e tr + countEvent e tr' := by
  induction tr with
  | nil => simp
  | cons x tr ih => simp [ih]; omega

theorem countEvent_eq_zero (e : Event) (tr : List Event) (h : e ∉ tr) :
    countEvent e tr = 0 := by
  induction tr with
  | nil => rfl
  | cons x tr ih =>
      have hx : ¬ x = e := fun hc => h (by simp [hc])
      simp [hx, ih fun hc => h (List.mem_cons_of_mem _ hc)]

/-- Over duplicate-free names, each identifier is called at most once. -/
theorem callsMade_count_le_one {V : Type} (client : AbilityClient V) (n : String) :
    ∀ names : List String, names.Nodup →
      countEvent (Event.callAbility n) (callsMade client names) ≤ 1 := by
  intro names
  induction names with
  | nil => intro _; simp [callsMade]
  | cons m rest ih =>
      intro hnd
      have hnd' : rest.Nodup := (List.nodup_cons.mp hnd).2
      rcases hm : client m with e | r <;> rw [callsMade, hm]
      · by_cases hmn : m = n <;> simp [hmn]
      · by_cases hmn : m = n
        · subst hmn
          have hzero : countEvent (Event.callAbility m) (callsMade client rest) = 0 := by
            apply countEvent_eq_zero
            intro hc
            obtain ⟨x, hx, hex⟩ := callsMade_mem client rest _ hc
            have hxm : m = x := by injection hex
            exact (List.nodup_cons.mp hnd).1 (hxm ▸ hx)
          simp [hzero]
        · have hne : ¬ Event.callAbility m = Event.callAbility n := by
            intro hc
            exact hmn (by injection hc)
          simpa [hne] using ih hnd'

/-- If every name succeeds, the loop calls the endpoint once per name in
order. -/
theorem callsMade_of_ok {V : Type} (client : AbilityClient V) :
    ∀ names : List String, (∀ m ∈ names, ∃ r, client m = Except.ok r) →
      callsMade client names = names.map Event.callAbility := by
  intro names
  induction names with
  | nil => intro _; simp [callsMade]
  | cons n rest ih =>
      intro h
      obtain ⟨r, hr⟩ := h n (by simp)
      simp only [callsMade, hr, List.map_cons]
      rw [ih fun m hm => h m (List.mem_cons_of_mem _ hm)]

/-- The backgrounds loop (`for background in api_response.results`), over
summaries with duplicate-free indices disjoint from the starting dict,
appends one entry per summary in order. -/
theorem bgFold_eq {V : Type} :
    ∀ (bs : List (BackgroundSummary V)) (acc : Dict V),
      (bs.map BackgroundSummary.index).Nodup →
      (∀ b ∈ bs, b.index ∉ dictKeys acc) →
      bs.foldl (fun d b => dictInsert d b.index b.to_dict) acc =
        acc ++ bs.map (fun b => (b.index, b.to_dict)) := by
  intro bs
  induction bs with
  | nil => intro acc _ _; simp
  | cons b rest ih =>
      intro acc hnd hdisj
      have hacc : dictInsert acc b.index b.to_dict = acc ++ [(b.index, b.to_dict)] :=
        dictInsert_of_not_mem acc _ _ (hdisj b (by simp))
      have hnd' : (rest.map BackgroundSummary.index).Nodup :=
        (List.nodup_cons.mp (by simpa using hnd)).2
      have hdisj' : ∀ c ∈ rest, c.index ∉ dictKeys (acc ++ [(b.index, b.to_dict)]) := by
        intro c hc
        have hcb : c.index ≠ b.index := by
          intro hcontra
          have hbn : b.index ∉ rest.map BackgroundSummary.index :=
            (List.nodup_cons.mp (by simpa using hnd)).1
          exact hbn (hcontra ▸ List.mem_map_of_mem _ hc)
        have hca : c.index ∉ dictKeys acc := hdisj c (List.mem_cons_of_mem _ hc)
        simp only [dictKeys_append, List.mem_append, dictKeys_cons, dictKeys_nil,
          List.mem_singleton]
        rintro (hx | hx)
        · exact hca hx
        · exact hcb hx
      simp only [List.foldl_cons, hacc, ih _ hnd' hdisj', List.map_cons,
        List.append_assoc, List.singleton_append]

/-- Looking up a summary's index in the entry list built from summaries with
duplicate-free indices yields that summary's conversion. -/
theorem dictLookup_bgMap {V : Type} :
    ∀ (bs : List (BackgroundSummary V)) (b : BackgroundSummary V),
      (bs.map BackgroundSummary.index).Nodup → b ∈ bs →
      dictLookup (bs.map fun c => (c.index, c.to_dict)) b.index = some b.to_dict := by
  intro bs
  induction bs with
  | nil => intro b _ hb; simp at hb
  | cons c rest ih =>
      intro b hnd hb
      rcases List.mem_cons.mp hb with hc | hc
      · subst hc
        simp [dictLookup]
      · have hcb : ¬ c.index = b.index := by
          intro hcontra
          have hcn : c.index ∉ rest.map BackgroundSummary.index :=
            (List.nodup_cons.mp (by simpa using hnd)).1
          exact hcn (hcontra ▸ List.mem_map_of_mem _ hc)
        simp only [List.map_cons, dictLookup, if_neg hcb]
        exact ih b (List.nodup_cons.mp (by simpa using hnd)).2 hc

/-- Whatever the backgrounds call target does, the trace of
`get_background_models` is: open the client, attempt the call once, close
the client. -/
theorem get_background_models_trace {V : Type} (bclient : BackgroundsClient V) :
    (get_background_models bclient).2 =
      [Event.openClient, Event.callBackgrounds, Event.closeClient] := by
  rcases bclient with _ | outcome
  · rfl
  · rcases outcome with e | resp <;> rfl

/-- An example client behaviour on which every ability-score call succeeds. -/
def allOkClient : AbilityClient Nat := fun _ => Except.ok ⟨7⟩

/-- C3: if every one of the six upstream ability-score calls succeeds,
`get_ability_score_models` returns a mapping with exactly six entries whose
key sequence is exactly `["str", "dex", "con", "int", "wis", "cha"]`, each
value being the `to_dict` conversion of the response for that identifier. -/
theorem claim_C3 {V : Type} (client : AbilityClient V)
    (h : ∀ n ∈ ABILITY_SCORE_NAMES, ∃ r, client n = Except.ok r) :
    ∃ d, (get_ability_score_models client).1 = PyResult.ret d ∧
      d.length = 6 ∧
      dictKeys d = ABILITY_SCORE_NAMES ∧
      ∀ n r, n ∈ ABILITY_SCORE_NAMES → client n = Except.ok r →
        dictLookup d n = some r.to_dict := by
  have hk := dictKeys_successEntries_of_ok client ABILITY_SCORE_NAMES h
  refine ⟨successEntries client ABILITY_SCORE_NAMES,
    by rw [get_ability_score_models_eq], ?_, hk,
    fun n r hn hr => dictLookup_successEntries_of_ok client _ n r h hn hr⟩
  have hlen : (dictKeys (successEntries client ABILITY_SCORE_NAMES)).length = 6 := by
    rw [hk]; rfl
  simpa [dictKeys] using hlen

/-- Witness for C3 at an all-succeeding client. -/
theorem claim_C3_witness :
    ∃ d, (get_ability_score_models allOkClient).1 = PyResult.ret d ∧
      d.length = 6 ∧
      dictKeys d = ABILITY_SCORE_NAMES ∧
      ∀ n r, n ∈ ABILITY_SCORE_NAMES → allOkClient n = Except.ok r →
        dictLookup d n = some r.to_dict :=
  claim_C3 allOkClient fun _ _ => ⟨⟨7⟩, rfl⟩

/-- An example client behaviour on which the call for `"str"` raises the
typed API exception and every other call succeeds. -/
def strFailClient : AbilityClient Nat := fun n =>
  if n = "str" then Except.error "http 500" else Except.ok ⟨7⟩

/-- C4: if the upstream call for one of the six identifiers raises the typed
API exception, that identifier is absent from the returned mapping, and the
operation returns normally (raises nothing to its caller). -/
theorem claim_C4 {V : Type} (client : AbilityClient V) (n : String) (e : String)
    (hn : n ∈ ABILITY_SCORE_NAMES) (he : client n = Except.error e) :
    ∃ d, (get_ability_score_models client).1 = PyResult.ret d ∧
      dictLookup d n = none :=
  ⟨successEntries client ABILITY_SCORE_NAMES,
    by rw [get_ability_score_models_eq],
    dictLookup_successEntries_of_error client e ABILITY_SCORE_NAMES n he⟩

/-- Witness for C4 at a client failing on `"str"`. -/
theorem claim_C4_witness :
    ∃ d, (get_ability_score_models strFailClient).1 = PyResult.ret d ∧
      dictLookup d "str" = none :=
  claim_C4 strFailClient "str" "http 500" (by decide) rfl

/-- C7: for every behaviour of the client, the key sequence of the mapping
returned by `get_ability_score_models` is an initial segment (`take k`) of
the fixed list `["str", "dex", "con", "int", "wis", "cha"]`: a single
failure aborts all remaining iterations, so any present identifier is
preceded by every earlier identifier of the list. -/
theorem claim_C7 {V : Type} (client : AbilityClient V) :
    ∃ k d, k ≤ 6 ∧ (get_ability_score_models client).1 = PyResult.ret d ∧
      dictKeys d = ABILITY_SCORE_NAMES.take k := by
  obtain ⟨k, hk, hkeys⟩ := successEntries_keys_take client ABILITY_SCORE_NAMES
  exact ⟨k, successEntries client ABILITY_SCORE_NAMES, hk,
    by rw [get_ability_score_models_eq], hkeys⟩

/-- C1 counterexample: the `try`/`except` wraps the whole `for` loop (lines
116-125), so a failing call aborts the remaining iterations instead of
continuing to the next identifier.  With a client that fails on `"str"` and
succeeds on everything else, the claim says `"dex"` (whose call succeeds) is
present; the code returns the empty mapping. -/
theorem claim_C1_counterexample :
    strFailClient "dex" = Except.ok ⟨7⟩ ∧
    (get_ability_score_models strFailClient).1 = PyResult.ret [] ∧
    ¬ ∃ d, (get_ability_score_models strFailClient).1 = PyResult.ret d ∧
        dictLookup d "dex" = some 7 := by
  refine ⟨rfl, rfl, ?_⟩
  rintro ⟨d, hd, hl⟩
  have hnil : d = ([] : Dict Nat) := by
    have h2 : (get_ability_score_models strFailClient).1 = PyResult.ret ([] : Dict Nat) := rfl
    rw [h2] at hd
    cases hd
    rfl
  rw [hnil] at hl
  simp [dictLookup] at hl

/-- C1 (amended): when the call for one of the six identifiers raises the
typed API exception, the operation logs the exception and aborts the
iteration: the failing identifier and every identifier after it in the fixed
order are omitted from the returned mapping, while every identifier before
the first failing identifier is present with the `to_dict` of its response,
and the operation returns normally. -/
theorem claim_C1 {V : Type} (client : AbilityClient V) (pre post : List String)
    (n e : String) (hsplit : ABILITY_SCORE_NAMES = pre ++ n :: post)
    (hpre : ∀ m ∈ pre, ∃ r, client m = Except.ok r)
    (hfail : client n = Except.error e) :
    ∃ d, (get_ability_score_models client).1 = PyResult.ret d ∧
      dictKeys d = pre ∧
      (∀ m r, m ∈ pre → client m = Except.ok r → dictLookup d m = some r.to_dict) ∧
      dictLookup d n = none ∧
      (∀ m ∈ post, dictLookup d m = none) := by
  have hsp : successEntries client ABILITY_SCORE_NAMES = successEntries client pre := by
    rw [hsplit, successEntries_append_of_ok client pre _ hpre]
    simp [successEntries, hfail]
  refine ⟨successEntries client ABILITY_SCORE_NAMES,
    by rw [get_ability_score_models_eq], ?_, ?_, ?_, ?_⟩
  · rw [hsp]
    exact dictKeys_successEntries_of_ok client pre hpre
  · intro m r hm hr
    rw [hsp]
    exact dictLookup_successEntries_of_ok client pre m r hpre hm hr
  · exact dictLookup_successEntries_of_error client e ABILITY_SCORE_NAMES n hfail
  · intro m hm
    rw [hsp, dictLookup_eq_none, dictKeys_successEntries_of_ok client pre hpre]
    have hnd : (pre ++ n :: post).Nodup := by
      rw [← hsplit]; decide
    have hdisj := (List.nodup_append.mp hnd).2.2
    intro hc
    exact hdisj hc (List.mem_cons_of_mem _ hm)

/-- An example client behaviour succeeding on `"str"` and raising the typed
API exception on `"dex"`. -/
def dexFailClient : AbilityClient Nat := fun n =>
  if n = "dex" then Except.error "http 500" else Except.ok ⟨7⟩

/-- Witness for the amended C1 at a client failing on `"dex"`. -/
theorem claim_C1_witness :
    ∃ d, (get_ability_score_models dexFailClient).1 = PyResult.ret d ∧
      dictKeys d = ["str"] ∧
      (∀ m r, m ∈ ["str"] → dexFailClient m = Except.ok r →
        dictLookup d m = some r.to_dict) ∧
      dictLookup d "dex" = none ∧
      (∀ m ∈ ["con", "int", "wis", "cha"], dictLookup d m = none) :=
  claim_C1 dexFailClient ["str"] ["con", "int", "wis", "cha"] "dex" "http 500"
    rfl
    (by
      intro m hm
      simp only [List.mem_singleton] at hm
      subst hm
      exact ⟨⟨7⟩, rfl⟩)
    rfl

/-- C2 counterexample: on the current client the invoked backgrounds method
does not exist, so the call raises `AttributeError`; the handler catches only
the typed `ApiException`, so `get_background_models` propagates the exception
to its caller instead of returning an empty mapping. -/
theorem claim_C2_counterexample :
    (get_background_models (V := Nat) BackgroundsClient.methodMissing).1 =
      PyResult.raised (PyExc.attributeError bgMissingMsg) ∧
    ¬ ∃ d, (get_background_models (V := Nat) BackgroundsClient.methodMissing).1 =
        PyResult.ret d := by
  refine ⟨rfl, ?_⟩
  rintro ⟨d, hd⟩
  simp [get_background_models] at hd

/-- C2 (amended): when the invoked backgrounds method does not exist (the
current implementation), the attribute access raises `AttributeError`, which
the `except ApiException` clause does not catch, so `get_background_models`
propagates that exception to its caller and returns nothing; an empty mapping
with no exception is returned exactly on the behaviours where the call raises
the typed API exception. -/
theorem claim_C2 {V : Type} (m : String) :
    (get_background_models (V := V) BackgroundsClient.methodMissing).1 =
      PyResult.raised (PyExc.attributeError bgMissingMsg) ∧
    (get_background_models (V := V)
        (BackgroundsClient.callable (Except.error m))).1 = PyResult.ret [] :=
  ⟨rfl, rfl⟩

/-- C5: if the backgrounds endpoint call succeeds with a `results` sequence
of summary objects (with pairwise-distinct `index` fields),
`get_background_models` returns the mapping whose key sequence is exactly
the `index` fields of those objects in order, each mapped to the full
`to_dict` conversion of its object. -/
theorem claim_C5 {V : Type} (bs : List (BackgroundSummary V))
    (hnd : (bs.map BackgroundSummary.index).Nodup) :
    ∃ d, (get_background_models
        (BackgroundsClient.callable (Except.ok ⟨bs⟩))).1 = PyResult.ret d ∧
      dictKeys d = bs.map BackgroundSummary.index ∧
      ∀ b ∈ bs, dictLookup d b.index = some b.to_dict := by
  refine ⟨bs.map fun b => (b.index, b.to_dict), ?_, ?_, ?_⟩
  · show PyResult.ret (bs.foldl (fun d b => dictInsert d b.index b.to_dict) []) = _
    rw [bgFold_eq bs [] hnd (by simp)]
    rfl
  · show (bs.map fun b => (b.index, b.to_dict)).map Prod.fst = _
    rw [List.map_map]
    rfl
  · exact fun b hb => dictLookup_bgMap bs b hnd hb

/-- An example `results` collection with two summaries, as in the spec. -/
def twoBackgrounds : List (BackgroundSummary Nat) :=
  [{ index := "acolyte", to_dict := 1 }, { index := "sage", to_dict := 2 }]

/-- Witness for C5 at a two-summary response. -/
theorem claim_C5_witness :
    ∃ d, (get_background_models
        (BackgroundsClient.callable (Except.ok ⟨twoBackgrounds⟩))).1 = PyResult.ret d ∧
      dictKeys d = twoBackgrounds.map BackgroundSummary.index ∧
      ∀ b ∈ twoBackgrounds, dictLookup d b.index = some b.to_dict :=
  claim_C5 twoBackgrounds (by decide)

/-- C6: for every behaviour of the client, neither operation ever re-raises
the typed API exception: `get_ability_score_models` always returns normally,
and `get_background_models` never propagates an `ApiException` (on the
current client it propagates an `AttributeError`, which is a different
exception type).  The returned mapping carries no error indication: the
empty mapping of the caught-`ApiException` path is the very value a
successful call with an empty `results` collection returns. -/
theorem claim_C6 {V : Type} (client : AbilityClient V)
    (bclient : BackgroundsClient V) (m : String) :
    (∃ d, (get_ability_score_models client).1 = PyResult.ret d) ∧
    (get_background_models bclient).1 ≠ PyResult.raised (PyExc.apiException m) ∧
    (get_background_models (V := V)
        (BackgroundsClient.callable (Except.error m))).1 =
      (get_background_models (V := V)
        (BackgroundsClient.callable (Except.ok ⟨[]⟩))).1 := by
  refine ⟨⟨successEntries client ABILITY_SCORE_NAMES,
    by rw [get_ability_score_models_eq]⟩, ?_, rfl⟩
  rcases bclient with _ | outcome
  · simp [get_background_models]
  · rcases outcome with e | resp <;> simp [get_background_models]

/-- An example client behaviour on which every ability-score call raises the
typed API exception. -/
def allFailClient : AbilityClient Nat := fun _ => Except.error "connection refused"

/-- C8 counterexample: when the call for `"str"` raises, the loop is aborted,
so the endpoint is never invoked for `"dex"` — not "exactly once per
identifier for each of the six". -/
theorem claim_C8_counterexample :
    countEvent (Event.callAbility "dex") (get_ability_score_models allFailClient).2 = 0 ∧
    ¬ countEvent (Event.callAbility "dex")
        (get_ability_score_models allFailClient).2 = 1 := by
  have h : (get_ability_score_models allFailClient).2 =
      [Event.openClient, Event.callAbility "str", Event.closeClient] := rfl
  rw [h]
  decide

/-- C8 (amended): in a single invocation of `get_ability_score_models` each
identifier's endpoint is invoked at most once (no retries); when every call
succeeds, each of the six identifiers is invoked exactly once; and in a
single invocation of `get_background_models` the backgrounds method call is
attempted exactly once, whatever the behaviour. -/
theorem claim_C8 {V : Type} (client : AbilityClient V)
    (bclient : BackgroundsClient V) (n : String) :
    countEvent (Event.callAbility n) (get_ability_score_models client).2 ≤ 1 ∧
    countEvent Event.callBackgrounds (get_background_models bclient).2 = 1 ∧
    ((∀ m ∈ ABILITY_SCORE_NAMES, ∃ r, client m = Except.ok r) →
      n ∈ ABILITY_SCORE_NAMES →
      countEvent (Event.callAbility n) (get_ability_score_models client).2 = 1) := by
  rw [get_ability_score_models_eq]
  refine ⟨?_, ?_, ?_⟩
  · simp only [countEvent_cons, countEvent_append]
    have hle := callsMade_count_le_one client n ABILITY_SCORE_NAMES (by decide)
    simp [countEvent]
    omega
  · rw [get_background_models_trace]
    decide
  · intro h hn
    rw [callsMade_of_ok client ABILITY_SCORE_NAMES h]
    dsimp only
    fin_cases hn <;> decide

/-- Witness for the amended C8 at an all-succeeding client and the current
(method-missing) backgrounds client. -/
theorem claim_C8_witness :
    countEvent (Event.callAbility "str") (get_ability_score_models allOkClient).2 ≤ 1 ∧
    countEvent Event.callBackgrounds
      (get_background_models (V := Nat) BackgroundsClient.methodMissing).2 = 1 ∧
    countEvent (Event.callAbility "str") (get_ability_score_models allOkClient).2 = 1 := by
  obtain ⟨h1, h2, h3⟩ := claim_C8 allOkClient BackgroundsClient.methodMissing "str"
  exact ⟨h1, h2, h3 (fun _ _ => ⟨⟨7⟩, rfl⟩) (by decide)⟩

/-- C9: every invocation of either operation opens exactly one scoped client
connection and closes it on every exit path: the trace starts with the open
event, ends with the close event, and contains exactly one of each — whether
the body returns normally (all ability cases, background success and caught
`ApiException`) or propagates an exception (the `AttributeError` of the
method-missing background case). -/
theorem claim_C9 {V : Type} (client : AbilityClient V)
    (bclient : BackgroundsClient V) :
    (∃ mid, (get_ability_score_models client).2 =
        Event.openClient :: mid ++ [Event.closeClient] ∧
      countEvent Event.openClient mid = 0 ∧
      countEvent Event.closeClient mid = 0) ∧
    countEvent Event.openClient (get_ability_score_models client).2 = 1 ∧
    countEvent Event.closeClient (get_ability_score_models client).2 = 1 ∧
    (∃ mid, (get_background_models bclient).2 =
        Event.openClient :: mid ++ [Event.closeClient] ∧
      countEvent Event.openClient mid = 0 ∧
      countEvent Event.closeClient mid = 0) ∧
    countEvent Event.openClient (get_background_models bclient).2 = 1 ∧
    countEvent Event.closeClient (get_background_models bclient).2 = 1 := by
  have hopen : countEvent Event.openClient
      (callsMade client ABILITY_SCORE_NAMES) = 0 := by
    apply countEvent_eq_zero
    intro hc
    obtain ⟨x, _, hex⟩ := callsMade_mem client ABILITY_SCORE_NAMES _ hc
    cases hex
  have hclose : countEvent Event.closeClient
      (callsMade client ABILITY_SCORE_NAMES) = 0 := by
    apply countEvent_eq_zero
    intro hc
    obtain ⟨x, _, hex⟩ := callsMade_mem client ABILITY_SCORE_NAMES _ hc
    cases hex
  rw [get_ability_score_models_eq, get_background_models_trace]
  exact ⟨⟨callsMade client ABILITY_SCORE_NAMES, rfl, hopen, hclose⟩,
    by simp [hopen], by simp [hclose],
    ⟨[Event.callBackgrounds], rfl, rfl, rfl⟩, by decide, by decide⟩

/-- C10: two successive invocations of either operation against the same
client behaviour produce equal results, and no mutable module state is shared
between them: each invocation reads the module state (`configuration`,
`ABILITY_SCORE_NAMES`), builds its result from a fresh empty dict, and leaves
the module state exactly as it found it. -/
theorem claim_C10 {V : Type} (s : ModuleState) (client : AbilityClient V)
    (bclient : BackgroundsClient V) :
    (invokeAbility s client).2 = s ∧
    (invokeAbility ((invokeAbility s client).2) client).1 =
      (invokeAbility s client).1 ∧
    (invokeBackground s bclient).2 = s ∧
    (invokeBackground ((invokeBackground s bclient).2) bclient).1 =
      (invokeBackground s bclient).1 :=
  ⟨rfl, rfl, rfl, rfl⟩

end DndActions
